import Mathlib

/-!
Shallow embedding of crudest.py (trackuity/crudest): a declarative REST
binding layer over Flask/marshmallow/apispec.  The definitions below are
translated from the source; theorems settle the frozen claims about it.
-/

namespace Crudest

/-! ### Path template scanning

`RestApi.RE_URL = re.compile(r'<(?:([^:<>]+):)?([^<>]+)>')` is used with
`findall` (to extract id params) and `sub(r'\x7b\2\x7d', path)` (to build the
swagger documentation path).  We embed the regex's matching behaviour on
character lists: a match starts at a literal `<`, its content is the maximal
run of non-`<`/`>` characters followed by `>`, and the content is split at the
first colon into a type and a name provided both parts are non-empty
(otherwise the whole content is the name and the type group is empty). -/

/-- Scan the characters after a `<`: return the match content (characters up
to the first `>`, none of which may be `<` or `>`) and the remainder after the
closing `>`; `none` when no closing `>` is reachable. -/
def grabContent : List Char → Option (List Char × List Char)
  | [] => none
  | c :: cs =>
    if c = '<' then none
    else if c = '>' then some ([], cs)
    else (grabContent cs).map (fun p => (c :: p.1, p.2))

theorem grabContent_length :
    ∀ (cs content rest : List Char), grabContent cs = some (content, rest) →
      rest.length < cs.length := by
  intro cs
  induction cs with
  | nil => intro content rest h; simp [grabContent] at h
  | cons c cs ih =>
    intro content rest h
    simp only [grabContent] at h
    by_cases h1 : c = '<'
    · simp [h1] at h
    · by_cases h2 : c = '>'
      · simp [h1, h2] at h
        simp [h.2]
      · simp only [h1, h2, if_false] at h
        cases hg : grabContent cs with
        | none => rw [hg] at h; simp at h
        | some p =>
          obtain ⟨content1, rest1⟩ := p
          rw [hg] at h
          simp only [Option.map_some', Option.some.injEq, Prod.mk.injEq] at h
          obtain ⟨hc, hr⟩ := h
          subst hr
          have := ih content1 rest1 hg
          simp only [List.length_cons]
          omega

/-- All regex matches of `RE_URL` in left-to-right order, returning the raw
content between `<` and `>` of each match (non-overlapping, leftmost-first,
as `re.findall` produces). -/
def findAll (cs : List Char) : List (List Char) :=
  match cs with
  | [] => []
  | c :: rest =>
    if c = '<' then
      match h : grabContent rest with
      | some (content, after) =>
        if content = [] then findAll rest else content :: findAll after
      | none => findAll rest
    else findAll rest
termination_by cs.length
decreasing_by
  all_goals simp only [List.length_cons]
  all_goals first
    | omega
    | (rename_i h _; have := grabContent_length _ _ _ h; omega)
    | (rename_i h; have := grabContent_length _ _ _ h; omega)

/-- Substitute every `RE_URL` match by an open brace, the name group, and a
close brace (`re.sub` with replacement referring to group 2), copying
unmatched characters verbatim. -/
def subPlaceholders (nameOf : List Char → List Char) (cs : List Char) : List Char :=
  match cs with
  | [] => []
  | c :: rest =>
    if c = '<' then
      match h : grabContent rest with
      | some (content, after) =>
        if content = [] then c :: subPlaceholders nameOf rest
        else '\x7b' :: (nameOf content ++ '\x7d' :: subPlaceholders nameOf after)
      | none => c :: subPlaceholders nameOf rest
    else c :: subPlaceholders nameOf rest
termination_by cs.length
decreasing_by
  all_goals simp only [List.length_cons]
  all_goals first
    | omega
    | (rename_i h _; have := grabContent_length _ _ _ h; omega)
    | (rename_i h; have := grabContent_length _ _ _ h; omega)

/-- Split a match content at its first colon into the optional type group and
the name group: the regex `(?:([^:<>]+):)?([^<>]+)` binds group 1 exactly
when a colon exists with non-empty text on both sides of its first
occurrence; otherwise group 1 is empty and the whole content is the name. -/
def splitContent (c : List Char) : List Char × List Char :=
  let pre := c.takeWhile (fun ch => ch ≠ ':')
  let post := c.dropWhile (fun ch => ch ≠ ':')
  match post with
  | _ :: rest => if pre ≠ [] ∧ rest ≠ [] then (pre, rest) else ([], c)
  | [] => ([], c)

example : findAll "/cats/<int:cat_id>".toList = [['i','n','t',':','c','a','t','_','i','d']] := by
  simp [findAll, grabContent]

example : splitContent ['i','n','t',':','c','a','t','_','i','d'] =
    (['i','n','t'], ['c','a','t','_','i','d']) := by decide

/-! ### Splitting and joining on `/`

`add_resource` computes `base_path = '/'.join(path.split('/')[:-1])`; we embed
Python's `str.split('/')` and `'/'.join` on character lists. -/

/-- Python `s.split('/')`: the list of slash-free groups; an empty string
yields one empty group. -/
def splitSlash : List Char → List (List Char)
  | [] => [[]]
  | c :: cs =>
    if c = '/' then [] :: splitSlash cs
    else (c :: (splitSlash cs).headI) :: (splitSlash cs).tail

/-- Python `'/'.join(groups)`. -/
def joinSlash : List (List Char) → List Char
  | [] => []
  | [g] => g
  | g :: g2 :: gs => g ++ '/' :: joinSlash (g2 :: gs)

theorem splitSlash_ne_nil (cs : List Char) : splitSlash cs ≠ [] := by
  cases cs with
  | nil => simp [splitSlash]
  | cons c cs =>
    simp only [splitSlash]
    by_cases h : c = '/'
    · simp [h]
    · simp [h]

theorem joinSlash_splitSlash (cs : List Char) : joinSlash (splitSlash cs) = cs := by
  induction cs with
  | nil => simp [splitSlash, joinSlash]
  | cons c cs ih =>
    by_cases h : c = '/'
    · subst h
      rw [show splitSlash ('/' :: cs) = [] :: splitSlash cs from by simp [splitSlash]]
      cases hg : splitSlash cs with
      | nil => exact absurd hg (splitSlash_ne_nil cs)
      | cons g gs =>
        rw [hg] at ih
        simp [joinSlash, ih]
    · rw [show splitSlash (c :: cs) =
          (c :: (splitSlash cs).headI) :: (splitSlash cs).tail from by simp [splitSlash, h]]
      cases hg : splitSlash cs with
      | nil => exact absurd hg (splitSlash_ne_nil cs)
      | cons g gs =>
        rw [hg] at ih
        cases gs with
        | nil => simpa [joinSlash] using ih
        | cons g2 gs2 =>
          simp only [List.headI, List.tail]
          simp only [joinSlash] at ih ⊢
          simp [ih]

theorem splitSlash_no_slash (s : List Char) (h : '/' ∉ s) : splitSlash s = [s] := by
  induction s with
  | nil => simp [splitSlash]
  | cons c cs ih =>
    simp only [List.mem_cons, not_or] at h
    have hc : ¬ c = '/' := fun hcc => h.1 hcc.symm
    rw [show splitSlash (c :: cs) =
        (c :: (splitSlash cs).headI) :: (splitSlash cs).tail from by simp [splitSlash, hc]]
    rw [ih h.2]
    simp [List.headI, List.tail]

theorem splitSlash_append (p s : List Char) (h : '/' ∉ s) :
    splitSlash (p ++ '/' :: s) = splitSlash p ++ [s] := by
  induction p with
  | nil =>
    simp only [List.nil_append]
    rw [show splitSlash ('/' :: s) = [] :: splitSlash s from by simp [splitSlash]]
    rw [splitSlash_no_slash s h]
    rfl
  | cons c p ih =>
    by_cases hc : c = '/'
    · subst hc
      rw [show ('/' :: p) ++ '/' :: s = '/' :: (p ++ '/' :: s) from rfl]
      rw [show splitSlash ('/' :: (p ++ '/' :: s)) = [] :: splitSlash (p ++ '/' :: s) from by
        simp [splitSlash]]
      rw [show splitSlash ('/' :: p) = [] :: splitSlash p from by simp [splitSlash]]
      rw [ih]
      rfl
    · rw [show (c :: p) ++ '/' :: s = c :: (p ++ '/' :: s) from rfl]
      rw [show splitSlash (c :: (p ++ '/' :: s)) =
          (c :: (splitSlash (p ++ '/' :: s)).headI) :: (splitSlash (p ++ '/' :: s)).tail from by
        simp [splitSlash, hc]]
      rw [show splitSlash (c :: p) =
          (c :: (splitSlash p).headI) :: (splitSlash p).tail from by simp [splitSlash, hc]]
      rw [ih]
      cases hg : splitSlash p with
      | nil => exact absurd hg (splitSlash_ne_nil p)
      | cons g gs => simp

/-! ### Python dict semantics

Link sets, request headers and keyword-argument dictionaries are Python
dicts: ordered association lists with unique keys, where assignment
overwrites in place and `\x7b**a, **b\x7d` merges `b` over `a` key-wise. -/

/-- `d[k] = v` on a Python dict: overwrite in place when the key exists,
append otherwise. -/
def dictSet {V : Type} (d : List (String × V)) (k : String) (v : V) : List (String × V) :=
  if d.any (fun p => p.1 = k) then
    d.map (fun p => if p.1 = k then (p.1, v) else p)
  else d ++ [(k, v)]

/-- `\x7b**a, **b\x7d`: every entry of `b` assigned over `a` in order. -/
def dictMerge {V : Type} (a b : List (String × V)) : List (String × V) :=
  b.foldl (fun d p => dictSet d p.1 p.2) a

/-- Membership in a Python set modelled as a deduplicated list (first-add
order): `s.add(k)`. -/
def addToSet (s : List String) (k : String) : List String :=
  if s.contains k then s else s ++ [k]

/-- Python `d.get(k)` / `d[k]` on a dict: the value at the (unique) matching
key. -/
def dictGet {V : Type} (d : List (String × V)) (k : String) : Option V :=
  match d with
  | [] => none
  | p :: rest => if p.1 = k then some p.2 else dictGet rest k

theorem dictGet_eq_none {V : Type} (d : List (String × V)) (k : String)
    (h : k ∉ d.map Prod.fst) : dictGet d k = none := by
  induction d with
  | nil => rfl
  | cons q d ih =>
    simp only [List.map_cons, List.mem_cons, not_or] at h
    simp only [dictGet, if_neg (fun hq : q.1 = k => h.1 hq.symm)]
    exact ih h.2

theorem dictGet_setAll {V : Type} (d : List (String × V)) (k : String) (v : V)
    (h : d.any (fun p => p.1 = k) = true) :
    dictGet (d.map (fun p => if p.1 = k then (p.1, v) else p)) k = some v := by
  induction d with
  | nil => simp at h
  | cons q d ih =>
    by_cases hq : q.1 = k
    · simp [dictGet, hq]
    · simp only [List.map_cons, if_neg hq, dictGet]
      apply ih
      simp only [List.any_cons, Bool.or_eq_true, decide_eq_true_eq] at h
      rcases h with h | h
      · exact absurd h hq
      · exact h

theorem dictGet_appendOne {V : Type} (d : List (String × V)) (k : String) (v : V)
    (h : ∀ p ∈ d, ¬ p.1 = k) : dictGet (d ++ [(k, v)]) k = some v := by
  induction d with
  | nil => simp [dictGet]
  | cons q d ih =>
    simp only [List.cons_append, dictGet, if_neg (h q (by simp))]
    exact ih (fun p hp => h p (by simp [hp]))

theorem dictGet_dictSet_self {V : Type} (d : List (String × V)) (k : String) (v : V) :
    dictGet (dictSet d k v) k = some v := by
  unfold dictSet
  by_cases h : d.any (fun p => p.1 = k)
  · rw [if_pos h]
    exact dictGet_setAll d k v h
  · rw [if_neg h]
    apply dictGet_appendOne
    intro p hp hc
    exact h (by simp only [List.any_eq_true, decide_eq_true_eq]; exact ⟨p, hp, hc⟩)

theorem dictGet_mapSet_ne {V : Type} (d : List (String × V)) (k k' : String) (v : V)
    (h : k' ≠ k) :
    dictGet (d.map (fun p => if p.1 = k then (p.1, v) else p)) k' = dictGet d k' := by
  induction d with
  | nil => rfl
  | cons q d ih =>
    by_cases hq : q.1 = k
    · simp only [List.map_cons, if_pos hq, dictGet]
      have hqk' : ¬ q.1 = k' := fun hc => h (hc ▸ hq)
      rw [if_neg hqk', if_neg hqk']
      exact ih
    · simp only [List.map_cons, if_neg hq, dictGet]
      by_cases hk' : q.1 = k'
      · rw [if_pos hk', if_pos hk']
      · rw [if_neg hk', if_neg hk']
        exact ih

theorem dictGet_appendOne_ne {V : Type} (d : List (String × V)) (k k' : String) (v : V)
    (h : k' ≠ k) : dictGet (d ++ [(k, v)]) k' = dictGet d k' := by
  induction d with
  | nil => simp [dictGet, if_neg (fun hc : k = k' => h hc.symm)]
  | cons q d ih =>
    simp only [List.cons_append, dictGet]
    by_cases hk' : q.1 = k'
    · rw [if_pos hk', if_pos hk']
    · rw [if_neg hk', if_neg hk']
      exact ih

theorem dictGet_dictSet_ne {V : Type} (d : List (String × V)) (k k' : String) (v : V)
    (h : k' ≠ k) : dictGet (dictSet d k v) k' = dictGet d k' := by
  unfold dictSet
  by_cases ha : d.any (fun p => p.1 = k)
  · rw [if_pos ha]
    exact dictGet_mapSet_ne d k k' v h
  · rw [if_neg ha]
    exact dictGet_appendOne_ne d k k' v h

/-- Key-wise law of the Python merge `\x7b**b, **r\x7d`: a key present in `r`
takes `r`'s value, any other key keeps `b`'s value. -/
theorem dictGet_dictMerge {V : Type} (b r : List (String × V)) (k : String)
    (hnd : (r.map Prod.fst).Nodup) :
    dictGet (dictMerge b r) k =
      (dictGet r k).orElse (fun _ => dictGet b k) := by
  induction r generalizing b with
  | nil => simp [dictMerge, dictGet, Option.orElse]
  | cons p r ih =>
    simp only [List.map_cons, List.nodup_cons] at hnd
    have step : dictMerge b (p :: r) = dictMerge (dictSet b p.1 p.2) r := rfl
    rw [step, ih _ hnd.2]
    by_cases hk : p.1 = k
    · have hr : dictGet r k = none := dictGet_eq_none r k (hk ▸ hnd.1)
      rw [hr]
      simp only [dictGet, if_pos hk, Option.orElse]
      subst hk
      exact dictGet_dictSet_self b p.1 p.2
    · simp only [dictGet, if_neg hk]
      cases dictGet r k with
      | some v => rfl
      | none =>
        simp only [Option.orElse]
        exact dictGet_dictSet_ne b p.1 k p.2 (fun hc => hk hc.symm)

/-! ### Id params and registration-time path derivation -/

/-- `RestApi.IdParam = namedtuple('IdParam', ['type', 'name'])`. -/
structure IdParam where
  type : String
  name : String
deriving DecidableEq, Repr

/-- `RestApi.URL_CONVERTER_TO_TYPE`: the dict from werkzeug converter names to
OpenAPI parameter types; `none` models a missing key. -/
def urlConverterToType (s : String) : Option String :=
  if s = "string" then some "string"
  else if s = "int" then some "integer"
  else if s = "float" then some "number"
  else if s = "path" then some "string"
  else none

/-- `RestApi.RE_URL.findall(path)`: the (type group, name group) pair of every
match, the type group empty when the placeholder is untyped. -/
def reUrlFindall (path : String) : List (String × String) :=
  (findAll path.toList).map (fun c =>
    ((splitContent c).1.asString, (splitContent c).2.asString))

/-- `cls.id_params` as computed by `RestApi.add_resource`: each match's type
group pushed through `URL_CONVERTER_TO_TYPE.get(type_, 'string')`. -/
def idParamsOf (path : String) : List IdParam :=
  (reUrlFindall path).map (fun p => ⟨(urlConverterToType p.1).getD "string", p.2⟩)

/-- `RestApi.add_path`'s `swagger_path = RE_URL.sub(...)`, rewriting each
placeholder to the brace-delimited name group. -/
def swaggerPathOf (path : String) : String :=
  (subPlaceholders (fun c => (splitContent c).2) path.toList).asString

/-- `RestApi.add_resource`'s `base_path = '/'.join(path.split('/')[:-1])`. -/
def basePathOf (path : String) : String :=
  (joinSlash (splitSlash path.toList).dropLast).asString

example : idParamsOf "/cats/<int:cat_id>/whiskers/<int:whisker_id>" =
    [⟨"integer", "cat_id"⟩, ⟨"integer", "whisker_id"⟩] := by
  simp [idParamsOf, reUrlFindall, findAll, grabContent, splitContent, urlConverterToType]
  decide

example : basePathOf "/cats/<int:cat_id>" = "/cats" := by
  simp [basePathOf, splitSlash, joinSlash]
  decide

example : swaggerPathOf "/cats/<int:cat_id>" = "/cats/\x7bcat_id\x7d" := by
  simp [swaggerPathOf, subPlaceholders, grabContent, splitContent]
  decide

/-! ### Structured path templates

To state the parser contract for an arbitrary template we describe templates
as alternations of literal text and placeholders and render them to the
concrete string the parser receives. -/

inductive TplPiece where
  | lit (s : List Char)
  | ph (type : Option (List Char)) (name : List Char)

/-- Render one template piece to its concrete characters. -/
def renderPiece : TplPiece → List Char
  | .lit s => s
  | .ph (some t) n => '<' :: ((t ++ ':' :: n) ++ ['>'])
  | .ph none n => '<' :: (n ++ ['>'])

def renderTpl : List TplPiece → List Char
  | [] => []
  | p :: ps => renderPiece p ++ renderTpl ps

/-- A well-formed identifier chunk: non-empty, free of the regex's
metacharacters. -/
def phOk (c : List Char) : Prop := c ≠ [] ∧ '<' ∉ c ∧ '>' ∉ c ∧ ':' ∉ c

def pieceOk : TplPiece → Prop
  | .lit s => '<' ∉ s ∧ '>' ∉ s
  | .ph (some t) n => phOk t ∧ phOk n
  | .ph none n => phOk n

/-- The placeholders of a template, in left-to-right occurrence order. -/
def phGroups : List TplPiece → List (Option (List Char) × List Char)
  | [] => []
  | .lit _ :: rest => phGroups rest
  | .ph t n :: rest => (t, n) :: phGroups rest

/-- The raw regex match content a placeholder renders to. -/
def phContent : Option (List Char) × List Char → List Char
  | (some t, n) => t ++ ':' :: n
  | (none, n) => n

/-- Documentation-path rendering: placeholders become brace-delimited names. -/
def renderDocPiece : TplPiece → List Char
  | .lit s => s
  | .ph _ n => '\x7b' :: (n ++ ['\x7d'])

def renderDocTpl : List TplPiece → List Char
  | [] => []
  | p :: ps => renderDocPiece p ++ renderDocTpl ps

theorem cons_append_single (a z : Char) (mid r : List Char) :
    (a :: (mid ++ [z])) ++ r = a :: (mid ++ z :: r) := by simp

theorem findAll_nil : findAll [] = [] := by rw [findAll]

theorem findAll_append_lit (s cs : List Char) (h : '<' ∉ s) :
    findAll (s ++ cs) = findAll cs := by
  induction s with
  | nil => rfl
  | cons c s ih =>
    simp only [List.mem_cons, not_or] at h
    have hc : ¬ c = '<' := fun hcc => h.1 hcc.symm
    rw [List.cons_append]
    rw [show findAll (c :: (s ++ cs)) = findAll (s ++ cs) from by
      rw [findAll]; rw [if_neg hc]]
    exact ih h.2

theorem grabContent_clean (mid r : List Char) (h2 : '<' ∉ mid) (h3 : '>' ∉ mid) :
    grabContent (mid ++ '>' :: r) = some (mid, r) := by
  induction mid with
  | nil => simp [grabContent]
  | cons c mid ih =>
    simp only [List.mem_cons, not_or] at h2 h3
    have hc2 : ¬ c = '<' := fun hcc => h2.1 hcc.symm
    have hc3 : ¬ c = '>' := fun hcc => h3.1 hcc.symm
    rw [List.cons_append]
    rw [show grabContent (c :: (mid ++ '>' :: r)) =
        (grabContent (mid ++ '>' :: r)).map (fun p => (c :: p.1, p.2)) from by
      rw [grabContent]; rw [if_neg hc2, if_neg hc3]]
    rw [ih h2.2 h3.2]
    rfl

theorem findAll_cons_ph (mid r : List Char) (h1 : mid ≠ []) (h2 : '<' ∉ mid)
    (h3 : '>' ∉ mid) : findAll ('<' :: (mid ++ '>' :: r)) = mid :: findAll r := by
  rw [findAll]
  rw [if_pos rfl]
  rw [grabContent_clean mid r h2 h3]
  simp only [if_neg h1]

theorem subPlaceholders_nil (f : List Char → List Char) : subPlaceholders f [] = [] := by
  rw [subPlaceholders]

theorem subPlaceholders_append_lit (f : List Char → List Char) (s cs : List Char)
    (h : '<' ∉ s) : subPlaceholders f (s ++ cs) = s ++ subPlaceholders f cs := by
  induction s with
  | nil => rfl
  | cons c s ih =>
    simp only [List.mem_cons, not_or] at h
    have hc : ¬ c = '<' := fun hcc => h.1 hcc.symm
    rw [List.cons_append]
    rw [show subPlaceholders f (c :: (s ++ cs)) = c :: subPlaceholders f (s ++ cs) from by
      rw [subPlaceholders]; rw [if_neg hc]]
    rw [ih h.2]
    rfl

theorem subPlaceholders_cons_ph (f : List Char → List Char) (mid r : List Char)
    (h1 : mid ≠ []) (h2 : '<' ∉ mid) (h3 : '>' ∉ mid) :
    subPlaceholders f ('<' :: (mid ++ '>' :: r)) =
      '\x7b' :: (f mid ++ '\x7d' :: subPlaceholders f r) := by
  rw [subPlaceholders]
  rw [if_pos rfl]
  rw [grabContent_clean mid r h2 h3]
  simp only [if_neg h1]

theorem takeWhile_no_colon (t : List Char) (h : ':' ∉ t) :
    t.takeWhile (fun ch => ch ≠ ':') = t := by
  induction t with
  | nil => rfl
  | cons c t ih =>
    simp only [List.mem_cons, not_or] at h
    have hc : c ≠ ':' := fun hcc => h.1 hcc.symm
    rw [List.takeWhile_cons, if_pos (by simp [hc])]
    rw [ih h.2]

theorem dropWhile_no_colon (t : List Char) (h : ':' ∉ t) :
    t.dropWhile (fun ch => ch ≠ ':') = [] := by
  induction t with
  | nil => rfl
  | cons c t ih =>
    simp only [List.mem_cons, not_or] at h
    have hc : c ≠ ':' := fun hcc => h.1 hcc.symm
    simp only [List.dropWhile_cons]
    rw [if_pos (by simp [hc])]
    exact ih h.2

theorem takeWhile_colon_append (t n : List Char) (h : ':' ∉ t) :
    (t ++ ':' :: n).takeWhile (fun ch => ch ≠ ':') = t := by
  induction t with
  | nil => simp [List.takeWhile_cons]
  | cons c t ih =>
    simp only [List.mem_cons, not_or] at h
    have hc : c ≠ ':' := fun hcc => h.1 hcc.symm
    simp only [List.cons_append, List.takeWhile_cons]
    rw [if_pos (by simp [hc])]
    rw [ih h.2]

theorem dropWhile_colon_append (t n : List Char) (h : ':' ∉ t) :
    (t ++ ':' :: n).dropWhile (fun ch => ch ≠ ':') = ':' :: n := by
  induction t with
  | nil => simp [List.dropWhile_cons]
  | cons c t ih =>
    simp only [List.mem_cons, not_or] at h
    have hc : c ≠ ':' := fun hcc => h.1 hcc.symm
    simp only [List.cons_append, List.dropWhile_cons]
    rw [if_pos (by simp [hc])]
    exact ih h.2

theorem splitContent_typed (t n : List Char) (ht : phOk t) (hn : phOk n) :
    splitContent (t ++ ':' :: n) = (t, n) := by
  unfold splitContent
  simp only
  rw [takeWhile_colon_append t n ht.2.2.2, dropWhile_colon_append t n ht.2.2.2]
  show (if t ≠ [] ∧ n ≠ [] then (t, n) else ([], t ++ ':' :: n)) = (t, n)
  rw [if_pos ⟨ht.1, hn.1⟩]

theorem splitContent_untyped (n : List Char) (hn : phOk n) :
    splitContent n = ([], n) := by
  unfold splitContent
  simp only
  rw [takeWhile_no_colon n hn.2.2.2, dropWhile_no_colon n hn.2.2.2]

theorem phContent_ne_nil (g : Option (List Char) × List Char)
    (h : (match g.1 with | some t => phOk t | none => True) ∧ phOk g.2) :
    phContent g ≠ [] := by
  obtain ⟨t, n⟩ := g
  cases t with
  | none => exact h.2.1
  | some t => simp [phContent]

theorem phContent_no_lt (g : Option (List Char) × List Char)
    (h : (match g.1 with | some t => phOk t | none => True) ∧ phOk g.2) :
    '<' ∉ phContent g := by
  obtain ⟨t, n⟩ := g
  cases t with
  | none => exact h.2.2.1
  | some t =>
    simp only [phContent, List.mem_append, List.mem_cons, not_or]
    exact ⟨h.1.2.1, by simp, h.2.2.1⟩

theorem phContent_no_gt (g : Option (List Char) × List Char)
    (h : (match g.1 with | some t => phOk t | none => True) ∧ phOk g.2) :
    '>' ∉ phContent g := by
  obtain ⟨t, n⟩ := g
  cases t with
  | none => exact h.2.2.2.1
  | some t =>
    simp only [phContent, List.mem_append, List.mem_cons, not_or]
    exact ⟨h.1.2.2.1, by simp, h.2.2.2.1⟩

/-- Every regex match of a well-formed rendered template is exactly one
placeholder's content, in left-to-right order. -/
theorem findAll_renderTpl (ps : List TplPiece) (h : ∀ p ∈ ps, pieceOk p) :
    findAll (renderTpl ps) = (phGroups ps).map phContent := by
  induction ps with
  | nil => simp [renderTpl, findAll_nil, phGroups]
  | cons p ps ih =>
    have hp := h p (by simp)
    have hrest := fun q hq => h q (List.mem_cons_of_mem p hq)
    cases p with
    | lit s =>
      simp only [renderTpl, renderPiece]
      rw [findAll_append_lit s _ hp.1]
      simp only [phGroups]
      exact ih hrest
    | ph t n =>
      cases t with
      | some t =>
        obtain ⟨ht, hn⟩ := hp
        simp only [renderTpl, renderPiece]
        rw [cons_append_single '<' '>' (t ++ ':' :: n) (renderTpl ps)]
        rw [findAll_cons_ph (t ++ ':' :: n) (renderTpl ps) (by simp)
          (phContent_no_lt (some t, n) ⟨ht, hn⟩) (phContent_no_gt (some t, n) ⟨ht, hn⟩)]
        simp only [phGroups, List.map_cons, phContent]
        rw [ih hrest]
      | none =>
        have hn := hp
        simp only [renderTpl, renderPiece]
        rw [cons_append_single '<' '>' n (renderTpl ps)]
        rw [findAll_cons_ph _ _ hn.1 hn.2.1 hn.2.2.1]
        simp only [phGroups, List.map_cons, phContent]
        rw [ih hrest]

/-- The documentation-path substitution of a well-formed rendered template
rewrites exactly each placeholder to its brace-delimited name. -/
theorem subPlaceholders_renderTpl (ps : List TplPiece) (h : ∀ p ∈ ps, pieceOk p) :
    subPlaceholders (fun c => (splitContent c).2) (renderTpl ps) = renderDocTpl ps := by
  induction ps with
  | nil => simp [renderTpl, subPlaceholders_nil, renderDocTpl]
  | cons p ps ih =>
    have hp := h p (by simp)
    have hrest := fun q hq => h q (List.mem_cons_of_mem p hq)
    cases p with
    | lit s =>
      simp only [renderTpl, renderDocTpl, renderPiece, renderDocPiece]
      rw [subPlaceholders_append_lit _ s _ hp.1]
      rw [ih hrest]
    | ph t n =>
      cases t with
      | some t =>
        obtain ⟨ht, hn⟩ := hp
        simp only [renderTpl, renderDocTpl, renderPiece, renderDocPiece]
        rw [cons_append_single '<' '>' (t ++ ':' :: n) (renderTpl ps)]
        rw [subPlaceholders_cons_ph (fun c => (splitContent c).2) (t ++ ':' :: n)
          (renderTpl ps) (by simp)
          (phContent_no_lt (some t, n) ⟨ht, hn⟩) (phContent_no_gt (some t, n) ⟨ht, hn⟩)]
        rw [show splitContent (t ++ ':' :: n) = (t, n) from splitContent_typed t n ht hn]
        rw [ih hrest]
        rw [cons_append_single '\x7b' '\x7d' n (renderDocTpl ps)]
      | none =>
        have hn := hp
        simp only [renderTpl, renderDocTpl, renderPiece, renderDocPiece]
        rw [cons_append_single '<' '>' n (renderTpl ps)]
        rw [subPlaceholders_cons_ph _ _ _ hn.1 hn.2.1 hn.2.2.1]
        rw [show splitContent n = ([], n) from splitContent_untyped n hn]
        rw [ih hrest]
        rw [cons_append_single '\x7b' '\x7d' n (renderDocTpl ps)]

/-! ### Response envelopes

`Response`, `HeadedResponse` and `WrappedResponse` of crudest.py.  Data and
serialized documents are modelled by a small JSON value type; a schema class
is an abstract serializer `dump data many` (marshmallow's
`schema_cls(many=many).dump(data)`). -/

inductive JVal where
  | str (s : String)
  | num (n : Int)
  | boolean (b : Bool)
  | null
  | arr (elems : List JVal)
  | obj (fields : List (String × JVal))

/-- The schema class collaborator: `dump` takes the data and the `many`
flag. -/
structure SchemaCls where
  dump : JVal → Bool → JVal

/-- The three response wrappers of crudest.py, with the constructor fields of
each Python class. -/
inductive REnvelope where
  | plain (data : JVal) (statusCode : Option Nat) (links : List (String × String))
  | headed (data : JVal) (statusCode : Option Nat) (links : List (String × String))
      (headers : Option (List (String × String)))
  | wrapped (data : JVal) (statusCode : Option Nat) (links : List (String × String))
      (dataKey : String) (extra : List (String × JVal))

def REnvelope.links : REnvelope → List (String × String)
  | .plain _ _ l => l
  | .headed _ _ l _ => l
  | .wrapped _ _ l _ _ => l

def REnvelope.statusCode : REnvelope → Option Nat
  | .plain _ st _ => st
  | .headed _ st _ _ => st
  | .wrapped _ st _ _ _ => st

/-- `Response.extend_links` on a raw link dict. -/
def resolveLinks (links : List (String × String))
    (base : Option (List (String × String))) : List (String × String) :=
  match base with
  | none => links
  | some b => dictMerge b links

/-- `Response.extend_links`. -/
def REnvelope.extendLinks (e : REnvelope) (base : Option (List (String × String))) :
    List (String × String) :=
  resolveLinks e.links base

/-- `Response.get_status_code(default)`. -/
def REnvelope.getStatusCode (e : REnvelope) (dflt : Nat) : Nat :=
  (e.statusCode).getD dflt

/-- A transport response: JSON body (or the empty body a delete returns) plus
response headers as an ordered dict. -/
inductive RBody where
  | json (v : JVal)
  | empty

structure TranspResp where
  body : RBody
  headers : List (String × String)

/-- One `Link` header entry per resolved link. -/
def linkEntry (p : String × String) : String :=
  "<" ++ p.2 ++ ">; rel=\"" ++ p.1 ++ "\""

/-- Python `', '.join`. -/
def joinCommaSpace : List String → String
  | [] => ""
  | [s] => s
  | s :: s2 :: rest => s ++ ", " ++ joinCommaSpace (s2 :: rest)

def formatLinkHeader (links : List (String × String)) : String :=
  joinCommaSpace (links.map linkEntry)

/-- `HeadedResponse.CORS_SAFELISTED_HEADERS`. -/
def corsSafelist : List String :=
  ["Cache-Control", "Content-Language", "Content-Length", "Content-Type",
   "Expires", "Last-Modified", "Pragma"]

/-- The set of header names `HeadedResponse.generate` adds (the `Link` header
when the joined link header is non-empty, then every explicitly supplied
header key, in order). -/
def headedAdded (linkHeader : String) (userHeaders : Option (List (String × String))) :
    List String :=
  let start := if linkHeader ≠ "" then ["Link"] else []
  match userHeaders with
  | none => start
  | some hs => hs.foldl (fun acc p => addToSet acc p.1) start

/-- `added_headers - CORS_SAFELISTED_HEADERS`. -/
def headedExpose (linkHeader : String) (userHeaders : Option (List (String × String))) :
    List String :=
  (headedAdded linkHeader userHeaders).filter (fun k => ¬ corsSafelist.contains k)

/-- The response headers built by `HeadedResponse.generate`: the `Link`
header, the user headers assigned in order, then the
`Access-Control-Expose-Headers` header when the expose set is non-empty. -/
def headedHeaders (resolved : List (String × String))
    (userHeaders : Option (List (String × String))) : List (String × String) :=
  let linkHeader := formatLinkHeader resolved
  let h0 : List (String × String) := if linkHeader ≠ "" then [("Link", linkHeader)] else []
  let h1 := match userHeaders with
    | none => h0
    | some hs => hs.foldl (fun acc p => dictSet acc p.1 p.2) h0
  let expose := headedExpose linkHeader userHeaders
  if expose ≠ [] then dictSet h1 "Access-Control-Expose-Headers" (joinCommaSpace expose)
  else h1

/-- Wrapped body: `jsonify(links=..., **\x7bdata_key: dumped, **kwargs\x7d)`. -/
def wrappedBody (resolved : List (String × String)) (dataKey : String) (dumped : JVal)
    (extra : List (String × JVal)) : JVal :=
  .obj (("links", .obj (resolved.map (fun p => (p.1, JVal.str p.2)))) ::
    dictMerge [(dataKey, dumped)] extra)

/-- `generate(schema_cls, many, base_links)` of each response class. -/
def REnvelope.generate (e : REnvelope) (schema : SchemaCls) (many : Bool)
    (base : Option (List (String × String))) : TranspResp :=
  match e with
  | .plain d _ _ => ⟨.json (schema.dump d many), []⟩
  | .headed d _ links userHeaders =>
    ⟨.json (schema.dump d many), headedHeaders (resolveLinks links base) userHeaders⟩
  | .wrapped d _ links dataKey extra =>
    ⟨.json (wrappedBody (resolveLinks links base) dataKey (schema.dump d many) extra), []⟩

/-! ### The RestView dispatcher

`RestView` handlers: route keyword arguments are the bound path identifiers
(an ordered dict of name to raw value); the request body parse
(`parser.parse(self.schema_cls(...), request, ...)`) is an external
collaborator keyed by whether the schema is instantiated fully or with
`partial=True` (every field optional). -/

inductive SchemaMode where
  | full
  | allOptional
deriving DecidableEq, Repr

/-- The incoming request as the handlers observe it: what the webargs parser
yields for each schema instantiation mode. -/
structure HttpRequest where
  parseBody : SchemaMode → List (String × String)

/-- The value a capability method returns: raw data or a Response object. -/
inductive RValue where
  | raw (d : JVal)
  | env (e : REnvelope)

/-- A resource instance as `RestView` consumes it: `cls.name` and
`cls.id_params` (set by `add_resource`) plus the capability methods. -/
structure ResourceObj where
  name : String
  idParams : List IdParam
  create : List (String × String) → RValue
  listM : List (String × String) → RValue
  retrieve : List (String × String) → RValue
  replace : List (String × String) → RValue
  update : List (String × String) → RValue
  deleteM : List (String × String) → RValue

/-- `RestView.__init__(schema_cls, resource, num_ids)`. -/
structure RestView where
  schemaCls : SchemaCls
  resource : ResourceObj
  numIds : Nat

/-- `RestView._extract_parent_ids`: the route values of all id params but the
last. -/
def extractParentIds (r : ResourceObj) (kwargs : List (String × String)) :
    List (String × String) :=
  r.idParams.dropLast.map (fun p => (p.name, (dictGet kwargs p.name).getD ""))

/-- `if not isinstance(response, Response): response = Response(data=response)`. -/
def asResponse : RValue → REnvelope
  | .raw d => .plain d none []
  | .env e => e

/-- `RestView.post`: parse the body against the full schema, call `create`
with route ids and parsed fields merged, serialize single with a derived
`collection` base link, default status 201. -/
def RestView.post (v : RestView) (urlFor : String → List (String × String) → String)
    (kwargs : List (String × String)) (req : HttpRequest) : TranspResp × Nat :=
  let parentIds := extractParentIds v.resource kwargs
  let merged := dictMerge kwargs (req.parseBody .full)
  let resp := asResponse (v.resource.create merged)
  (resp.generate v.schemaCls false
    (some [("collection", urlFor v.resource.name parentIds)]),
   resp.getStatusCode 201)

/-- `RestView.get`: one dispatcher for List and Retrieve, branching on
`len(kwargs) < self.num_ids`. -/
def RestView.get (v : RestView) (urlFor : String → List (String × String) → String)
    (kwargs : List (String × String)) : TranspResp × Nat :=
  let parentIds := extractParentIds v.resource kwargs
  if kwargs.length < v.numIds then
    let resp := asResponse (v.resource.listM kwargs)
    (resp.generate v.schemaCls true
      (some [("self", urlFor v.resource.name parentIds)]),
     resp.getStatusCode 200)
  else
    let resp := asResponse (v.resource.retrieve kwargs)
    (resp.generate v.schemaCls false
      (some [("self", urlFor v.resource.name (dictMerge parentIds kwargs)),
             ("collection", urlFor v.resource.name parentIds)]),
     resp.getStatusCode 200)

/-- `RestView.put`: full schema parse, then `self.resource.replace(...)`. -/
def RestView.put (v : RestView) (urlFor : String → List (String × String) → String)
    (kwargs : List (String × String)) (req : HttpRequest) : TranspResp × Nat :=
  let parentIds := extractParentIds v.resource kwargs
  let merged := dictMerge kwargs (req.parseBody .full)
  let resp := asResponse (v.resource.replace merged)
  (resp.generate v.schemaCls false
    (some [("collection", urlFor v.resource.name parentIds)]),
   resp.getStatusCode 200)

/-- `RestView.patch`: `partial=True` schema parse, then
`self.resource.update(...)`. -/
def RestView.patch (v : RestView) (urlFor : String → List (String × String) → String)
    (kwargs : List (String × String)) (req : HttpRequest) : TranspResp × Nat :=
  let parentIds := extractParentIds v.resource kwargs
  let merged := dictMerge kwargs (req.parseBody .allOptional)
  let resp := asResponse (v.resource.update merged)
  (resp.generate v.schemaCls false
    (some [("collection", urlFor v.resource.name parentIds)]),
   resp.getStatusCode 200)

/-- `RestView.delete`: call the resource's delete and answer `('', 204)`,
never touching the schema or the returned value. -/
def RestView.delete (v : RestView) (kwargs : List (String × String)) :
    TranspResp × Nat :=
  let _ := v.resource.deleteM kwargs
  (⟨.empty, []⟩, 204)

/-- The delegation installed by `UpdateResource.replace`: calling `replace`
invokes `update`. -/
def updateResourceReplace (update : List (String × String) → RValue) :
    List (String × String) → RValue :=
  fun kwargs => update kwargs

/-! ### Registration: `add_path`, `add_resource`, the spec accumulator

Declaration-side view of a resource class: which capability base classes it
derives from, and the decorator metadata (`__extra_args__`,
`__auth_required__`, `__doc__`) of each capability method.  The Replace
branch of `add_resource` reads its metadata from `cls.update` (not from a
`replace` method), exactly as the source does. -/

structure MethodMeta where
  extraArgs : Option (List String)
  authRequired : Option String
  doc : Option String
deriving DecidableEq, Repr

structure ResourceClsDecl where
  subCreate : Bool
  subList : Bool
  subNonListRetrieve : Bool
  subRetrieve : Bool
  subReplace : Bool
  subUpdate : Bool
  subDelete : Bool
  subCrud : Bool
  createMeta : MethodMeta
  listMeta : MethodMeta
  retrieveMeta : MethodMeta
  updateMeta : MethodMeta
  deleteMeta : MethodMeta
deriving DecidableEq, Repr

/-- `issubclass(cls, CreateResource)` (CrudResource derives from it). -/
def isSubCreate (c : ResourceClsDecl) : Bool := c.subCreate || c.subCrud

/-- `issubclass(cls, ListResource)`: RetrieveResource and CrudResource both
derive from ListResource. -/
def isSubList (c : ResourceClsDecl) : Bool := c.subList || c.subRetrieve || c.subCrud

/-- `issubclass(cls, NonListableRetrieveResource)`. -/
def isSubNonListRetrieve (c : ResourceClsDecl) : Bool :=
  c.subNonListRetrieve || c.subRetrieve || c.subCrud

/-- `issubclass(cls, ReplaceResource)`: UpdateResource derives from
ReplaceResource, CrudResource from UpdateResource. -/
def isSubReplace (c : ResourceClsDecl) : Bool := c.subReplace || c.subUpdate || c.subCrud

/-- `issubclass(cls, UpdateResource)`. -/
def isSubUpdate (c : ResourceClsDecl) : Bool := c.subUpdate || c.subCrud

/-- `issubclass(cls, DeleteResource)`. -/
def isSubDelete (c : ResourceClsDecl) : Bool := c.subDelete || c.subCrud

/-- One operation appended to the spec document by `RestApi.add_path`. -/
structure SpecOperation where
  method : String
  path : String
  tag : String
  pathParams : List IdParam
  queryParams : List String
  inputMode : Option SchemaMode
  outputMany : Option Bool
  statusCode : Nat
  security : List String
  description : String
deriving DecidableEq, Repr

/-- `RestApi.add_path`: registers the URL rule and appends one operation.
The security requirement is the declared scheme, else the configured default,
else empty (Python truthiness: a falsy resolved scheme also yields an empty
requirement). -/
def addPath (defaultScheme : Option String) (path : String) (method : String)
    (tag : String) (idParams : List IdParam) (inputMode : Option SchemaMode)
    (outputMany : Option Bool) (xargs : Option (List String))
    (authRequired : Option String) (statusCode : Nat) (doc : Option String) :
    (String × String) × SpecOperation :=
  let auth := match authRequired with | none => defaultScheme | some a => some a
  ((path, method),
   { method := method
     path := swaggerPathOf path
     tag := tag
     pathParams := idParams
     queryParams := match xargs with | none => [] | some l => l
     inputMode := inputMode
     outputMany := outputMany
     statusCode := statusCode
     security := match auth with | none => [] | some a => if a = "" then [] else [a]
     description := match doc with | none => "" | some d => d })

/-- What one `add_resource` call produces: the computed id params, the URL
rules registered on the app (in order, duplicates included: the Replace and
Update branches call `add_url_rule` a second time after `add_path`), the
operations appended to the spec document (in order), and the
`resource_methods[name]` set. -/
structure AddResourceResult where
  idParams : List IdParam
  urlRules : List (String × String)
  operations : List SpecOperation
  methodsSet : List String
deriving DecidableEq, Repr

/-- `RestApi.add_resource(cls, path, name, schema)`. -/
def addResource (ds : Option String) (cls : ResourceClsDecl) (path name : String) :
    AddResourceResult :=
  let idp := idParamsOf path
  let bp := basePathOf path
  let createPart := if isSubCreate cls then
      [addPath ds bp "POST" name idp.dropLast (some .full) (some false)
        cls.createMeta.extraArgs cls.createMeta.authRequired 201 cls.createMeta.doc]
    else []
  let listPart := if isSubList cls then
      [addPath ds bp "GET" name idp.dropLast none (some true)
        cls.listMeta.extraArgs cls.listMeta.authRequired 200 cls.listMeta.doc]
    else []
  let retrievePart := if isSubNonListRetrieve cls then
      [addPath ds path "GET" name idp none (some false)
        cls.retrieveMeta.extraArgs cls.retrieveMeta.authRequired 200 cls.retrieveMeta.doc]
    else []
  let replacePart := if isSubReplace cls then
      [addPath ds path "PUT" name idp (some .full) (some false)
        cls.updateMeta.extraArgs cls.updateMeta.authRequired 200 cls.updateMeta.doc]
    else []
  let updatePart := if isSubUpdate cls then
      [addPath ds path "PATCH" name idp (some .allOptional) (some false)
        cls.updateMeta.extraArgs cls.updateMeta.authRequired 200 cls.updateMeta.doc]
    else []
  let deletePart := if isSubDelete cls then
      [addPath ds path "DELETE" name idp none none
        cls.deleteMeta.extraArgs cls.deleteMeta.authRequired 204 cls.deleteMeta.doc]
    else []
  { idParams := idp
    urlRules :=
      createPart.map Prod.fst ++ listPart.map Prod.fst ++ retrievePart.map Prod.fst ++
      replacePart.map Prod.fst ++ (if isSubReplace cls then [(path, "PUT")] else []) ++
      updatePart.map Prod.fst ++ (if isSubUpdate cls then [(path, "PATCH")] else []) ++
      deletePart.map Prod.fst
    operations :=
      (createPart ++ listPart ++ retrievePart ++ replacePart ++ updatePart ++
        deletePart).map Prod.snd
    methodsSet :=
      ((if isSubCreate cls then ["POST"] else []) ++
       (if isSubList cls then ["GET"] else []) ++
       (if isSubNonListRetrieve cls then ["GET"] else []) ++
       (if isSubReplace cls then ["PUT"] else []) ++
       (if isSubUpdate cls then ["PATCH"] else []) ++
       (if isSubDelete cls then ["DELETE"] else [])).foldl addToSet [] }

/-! ### The registry and resource groups -/

/-- `RestApi.url_for`'s method resolution: the first of GET, PUT, DELETE,
POST present in `resource_methods[resource_name]` (else no method). -/
def pickMethod (ms : List String) : Option String :=
  if ms.contains "GET" then some "GET"
  else if ms.contains "PUT" then some "PUT"
  else if ms.contains "DELETE" then some "DELETE"
  else if ms.contains "POST" then some "POST"
  else none

/-- The root registry (`RestApi`) as the blueprint layer sees it: registered
resources in order, plus the external flask `url_for` collaborator. -/
structure ApiState where
  defaultScheme : Option String
  registered : List (ResourceClsDecl × String × String)
  resourceMethods : List (String × List String)
  flaskUrlFor : String → Option String → List (String × String) → String

/-- `RestApi.url_for(resource_name, _method=None, ...)`. -/
def ApiState.urlFor (a : ApiState) (name : String) (method : Option String)
    (args : List (String × String)) : String :=
  let m := match method with
    | some m => some m
    | none => pickMethod ((dictGet a.resourceMethods name).getD [])
  a.flaskUrlFor name m args

/-- `RestApi.add_resource` at registry level (records the registration). -/
def ApiState.addResource (a : ApiState) (cls : ResourceClsDecl) (path name : String) :
    ApiState :=
  { a with
    registered := a.registered ++ [(cls, path, name)]
    resourceMethods :=
      dictSet a.resourceMethods name
        (((dictGet a.resourceMethods name).getD []) ++
          (Crudest.addResource a.defaultScheme cls path name).methodsSet) }

mutual

/-- What a `RestApiBlueprint` can be bound to: the root `RestApi` or another
blueprint. -/
inductive BindTarget where
  | api (a : ApiState)
  | group (b : BlueprintObj)

/-- `RestApiBlueprint`: deferred resource declarations plus the `_rest_api`
it has been bound to (if any). -/
inductive BlueprintObj where
  | mk (resources : List (ResourceClsDecl × String × String))
       (restApi : Option BindTarget)

end

def BlueprintObj.resources : BlueprintObj → List (ResourceClsDecl × String × String)
  | .mk rs _ => rs

def BlueprintObj.boundTo : BlueprintObj → Option BindTarget
  | .mk _ t => t

/-- `RestApiBlueprint.bind`: raises when already bound. -/
def BlueprintObj.bind (b : BlueprintObj) (tgt : BindTarget) :
    Except String BlueprintObj :=
  match b.boundTo with
  | some _ => .error "blueprints can be bound to one rest api only"
  | none => .ok (.mk b.resources (some tgt))

/-- `RestApiBlueprint.add_resource`: append the declaration. -/
def BlueprintObj.addResource (b : BlueprintObj) (cls : ResourceClsDecl)
    (path name : String) : BlueprintObj :=
  .mk (b.resources ++ [(cls, path, name)]) b.boundTo

/-- `RestApiBlueprint.add_blueprint`: bind the child to this group and extend
this group's resources with the child's, in order. -/
def BlueprintObj.addBlueprint (parent child : BlueprintObj) :
    Except String (BlueprintObj × BlueprintObj) :=
  match child.bind (.group parent) with
  | .error e => .error e
  | .ok child2 => .ok (.mk (parent.resources ++ child.resources) parent.boundTo, child2)

/-- `RestApi.add_blueprint`: bind the blueprint to the api, then
`add_resource` every declared resource in declaration order. -/
def ApiState.addBlueprint (a : ApiState) (b : BlueprintObj) :
    Except String (ApiState × BlueprintObj) :=
  match b.bind (.api a) with
  | .error e => .error e
  | .ok b2 =>
    .ok (b.resources.foldl (fun s r => s.addResource r.1 r.2.1 r.2.2) a, b2)

mutual

/-- `url_for` on a bind target: the api's own `url_for`, or the bound
group's delegation. -/
def BindTarget.urlFor : BindTarget → String → Option String →
    List (String × String) → Option String
  | .api a, n, m, args => some (a.urlFor n m args)
  | .group b, n, m, args => BlueprintObj.urlFor b n m args

/-- `RestApiBlueprint.url_for`: delegates to `self._rest_api` (`none` models
the AttributeError an unbound group raises). -/
def BlueprintObj.urlFor : BlueprintObj → String → Option String →
    List (String × String) → Option String
  | .mk _ none, _, _, _ => none
  | .mk _ (some t), n, m, args => BindTarget.urlFor t n m args

end

/-! ### Auxiliary facts for the parser claims -/

theorem phGroups_ok (ps : List TplPiece) (h : ∀ p ∈ ps, pieceOk p) :
    ∀ g ∈ phGroups ps,
      (match g.1 with | some t => phOk t | none => True) ∧ phOk g.2 := by
  induction ps with
  | nil => intro g hg; simp [phGroups] at hg
  | cons p ps ih =>
    intro g hg
    have hrest := fun q hq => h q (List.mem_cons_of_mem p hq)
    cases p with
    | lit s => exact ih hrest g hg
    | ph t n =>
      simp only [phGroups, List.mem_cons] at hg
      rcases hg with hg | hg
      · subst hg
        have hp := h (.ph t n) (by simp)
        cases t with
        | some t => exact ⟨hp.1, hp.2⟩
        | none => exact ⟨trivial, hp⟩
      · exact ih hrest g hg

/-- The id param a placeholder group parses to. -/
def idParamOfGroup (g : Option (List Char) × List Char) : IdParam :=
  ⟨(urlConverterToType (match g.1 with
      | some t => t.asString
      | none => "")).getD "string",
   g.2.asString⟩

theorem splitContent_phContent (g : Option (List Char) × List Char)
    (h : (match g.1 with | some t => phOk t | none => True) ∧ phOk g.2) :
    splitContent (phContent g) =
      ((match g.1 with | some t => t | none => []), g.2) := by
  obtain ⟨t, n⟩ := g
  cases t with
  | some t => exact splitContent_typed t n h.1 h.2
  | none => exact splitContent_untyped n h.2

theorem idParamsOf_renderTpl (ps : List TplPiece) (h : ∀ p ∈ ps, pieceOk p) :
    idParamsOf (String.mk (renderTpl ps)) = (phGroups ps).map idParamOfGroup := by
  unfold idParamsOf reUrlFindall
  rw [show (String.mk (renderTpl ps)).toList = renderTpl ps from rfl]
  rw [findAll_renderTpl ps h]
  rw [List.map_map, List.map_map]
  apply List.map_congr_left
  intro g hg
  have hok := phGroups_ok ps h g hg
  simp only [Function.comp]
  rw [splitContent_phContent g hok]
  obtain ⟨t, n⟩ := g
  cases t with
  | some t => rfl
  | none => rfl

/-- Strings are their character lists. -/
theorem asString_mk (cs : List Char) : cs.asString = String.mk cs := rfl

theorem swaggerPathOf_renderTpl (ps : List TplPiece) (h : ∀ p ∈ ps, pieceOk p) :
    swaggerPathOf (String.mk (renderTpl ps)) = String.mk (renderDocTpl ps) := by
  unfold swaggerPathOf
  rw [show (String.mk (renderTpl ps)).toList = renderTpl ps from rfl]
  rw [subPlaceholders_renderTpl ps h]
  exact asString_mk _

theorem basePathOf_strip_last (p sseg : List Char) (h : '/' ∉ sseg) :
    basePathOf (String.mk (p ++ '/' :: sseg)) = String.mk p := by
  unfold basePathOf
  rw [show (String.mk (p ++ '/' :: sseg)).toList = p ++ '/' :: sseg from rfl]
  rw [splitSlash_append p sseg h]
  rw [List.dropLast_concat]
  rw [joinSlash_splitSlash p]
  exact asString_mk _

/-! ### Claims C4 and C5: the path template parser -/

/-- C4: for any path template with n placeholders of the form type-colon-name
or untyped name, the parsed idParams list has length n, preserves
left-to-right occurrence order, and maps each placeholder to its declared
type pushed through the converter table (defaulting to string when no type is
given, since the empty type group misses the table); the same parsing yields
the documentation path with each placeholder rewritten to the brace-delimited
name, and the collection path is the template with its final path segment
removed. -/
theorem claim4_path_template_contract (ps : List TplPiece)
    (h : ∀ p ∈ ps, pieceOk p) :
    (idParamsOf (String.mk (renderTpl ps))).length = (phGroups ps).length ∧
    idParamsOf (String.mk (renderTpl ps)) = (phGroups ps).map idParamOfGroup ∧
    swaggerPathOf (String.mk (renderTpl ps)) = String.mk (renderDocTpl ps) ∧
    (∀ (p sseg : List Char), '/' ∉ sseg →
      basePathOf (String.mk (p ++ '/' :: sseg)) = String.mk p) := by
  refine ⟨?_, idParamsOf_renderTpl ps h, swaggerPathOf_renderTpl ps h,
    basePathOf_strip_last⟩
  rw [idParamsOf_renderTpl ps h, List.length_map]

/-- The template `/cats/<int:cat_id>` as a structured template. -/
def catPieces : List TplPiece :=
  [.lit "/cats/".toList, .ph (some "int".toList) "cat_id".toList]

theorem catPieces_ok : ∀ p ∈ catPieces, pieceOk p := by
  intro p hp
  simp only [catPieces, List.mem_cons, List.not_mem_nil, or_false] at hp
  rcases hp with rfl | rfl
  · exact ⟨by decide, by decide⟩
  · exact ⟨⟨by decide, by decide, by decide, by decide⟩,
      ⟨by decide, by decide, by decide, by decide⟩⟩

/-- Witness for C4 at the concrete template `/cats/<int:cat_id>`. -/
theorem claim4_witness :
    idParamsOf (String.mk (renderTpl catPieces)) = [⟨"integer", "cat_id"⟩] ∧
    swaggerPathOf (String.mk (renderTpl catPieces)) = String.mk (renderDocTpl catPieces) ∧
    basePathOf (String.mk ("/cats".toList ++ '/' :: "abc".toList)) =
      String.mk "/cats".toList := by
  have h := claim4_path_template_contract catPieces catPieces_ok
  refine ⟨?_, h.2.2.1, h.2.2.2 "/cats".toList "abc".toList (by decide)⟩
  rw [h.2.1]
  decide

/-- Metadata of a capability method with no decorators. -/
def noMeta : MethodMeta := ⟨none, none, none⟩

/-- A class deriving only CreateResource and NonListableRetrieveResource. -/
def createRetrieveCls : ResourceClsDecl :=
  { subCreate := true, subList := false, subNonListRetrieve := true,
    subRetrieve := false, subReplace := false, subUpdate := false,
    subDelete := false, subCrud := false,
    createMeta := noMeta, listMeta := noMeta, retrieveMeta := noMeta,
    updateMeta := noMeta, deleteMeta := noMeta }

/-- C5 counterexample: registering the template `/pets/<uuid:pet_id>`, whose
declared type `uuid` is not in the converter table, raises nothing in the
registration code.  `add_resource` completes normally — it binds the usual
routes and silently records the id param with type `string` — contradicting
the claim that such a registration fails with a `TemplateError` (no such
error exists anywhere in the code). -/
theorem claim5_counterexample :
    urlConverterToType "uuid" = none ∧
    idParamsOf "/pets/<uuid:pet_id>" = [⟨"string", "pet_id"⟩] ∧
    (addResource none createRetrieveCls "/pets/<uuid:pet_id>" "Pet").urlRules =
      [("/pets", "POST"), ("/pets/<uuid:pet_id>", "GET")] := by
  refine ⟨rfl, ?_, ?_⟩
  · simp [idParamsOf, reUrlFindall, findAll, grabContent, splitContent, urlConverterToType]
    decide
  · simp [addResource, addPath, isSubCreate, isSubList, isSubNonListRetrieve,
      isSubReplace, isSubUpdate, isSubDelete, createRetrieveCls, basePathOf,
      splitSlash, joinSlash]
    decide

/-- C5 amended: a placeholder whose declared type is unknown to the converter
table does not make registration fail; the parser silently records the id
param with type `string` (the `.get` default), exactly as for an untyped
placeholder. -/
theorem claim5_unknown_type_defaults (ps : List TplPiece) (h : ∀ p ∈ ps, pieceOk p)
    (t n : List Char) (hmem : (some t, n) ∈ phGroups ps)
    (hunk : urlConverterToType t.asString = none) :
    IdParam.mk "string" n.asString ∈ idParamsOf (String.mk (renderTpl ps)) := by
  rw [idParamsOf_renderTpl ps h]
  refine List.mem_map.mpr ⟨(some t, n), hmem, ?_⟩
  simp only [idParamOfGroup, hunk, Option.getD_none]

/-- The template `/pets/<uuid:pet_id>` as a structured template. -/
def petPieces : List TplPiece :=
  [.lit "/pets/".toList, .ph (some "uuid".toList) "pet_id".toList]

theorem petPieces_ok : ∀ p ∈ petPieces, pieceOk p := by
  intro p hp
  simp only [petPieces, List.mem_cons, List.not_mem_nil, or_false] at hp
  rcases hp with rfl | rfl
  · exact ⟨by decide, by decide⟩
  · exact ⟨⟨by decide, by decide, by decide, by decide⟩,
      ⟨by decide, by decide, by decide, by decide⟩⟩

/-- Witness for the amended C5 at `/pets/<uuid:pet_id>`. -/
theorem claim5_witness :
    IdParam.mk "string" "pet_id".toList.asString ∈
      idParamsOf (String.mk (renderTpl petPieces)) :=
  claim5_unknown_type_defaults petPieces petPieces_ok "uuid".toList "pet_id".toList
    (by decide) (by decide)

/-! ### Claims C1, C6, C7, C10: the capability-to-route mapping and the
spec accumulator -/

/-- C1: the capability-to-verb/path/status mapping of `add_resource` is
exactly the fixed table — Create binds POST on the collection path with
status 201, List GET on the collection path with 200, Retrieve GET on the
item path with 200, Replace PUT with 200, Update PATCH with 200, Delete
DELETE with 204 — and the delete handler always answers an empty body with
status 204, independent of the resource's return value and of the schema. -/
theorem claim1_capability_route_mapping (ds : Option String)
    (cls : ResourceClsDecl) (path name : String) :
    ((addResource ds cls path name).operations.map
        (fun op => (op.method, op.path, op.statusCode)) =
      (if isSubCreate cls then [("POST", swaggerPathOf (basePathOf path), 201)] else []) ++
      (if isSubList cls then [("GET", swaggerPathOf (basePathOf path), 200)] else []) ++
      (if isSubNonListRetrieve cls then [("GET", swaggerPathOf path, 200)] else []) ++
      (if isSubReplace cls then [("PUT", swaggerPathOf path, 200)] else []) ++
      (if isSubUpdate cls then [("PATCH", swaggerPathOf path, 200)] else []) ++
      (if isSubDelete cls then [("DELETE", swaggerPathOf path, 204)] else [])) ∧
    ((addResource ds cls path name).operations.filter
        (fun op => op.method = "DELETE") =
      if isSubDelete cls then
        [(addPath ds path "DELETE" name (idParamsOf path) none none
            cls.deleteMeta.extraArgs cls.deleteMeta.authRequired 204
            cls.deleteMeta.doc).2]
      else []) ∧
    (∀ (v : RestView) (kwargs : List (String × String)),
      RestView.delete v kwargs = (⟨.empty, []⟩, 204)) := by
  refine ⟨?_, ?_, fun v kwargs => rfl⟩ <;>
    by_cases h1 : isSubCreate cls <;> by_cases h2 : isSubList cls <;>
      by_cases h3 : isSubNonListRetrieve cls <;> by_cases h4 : isSubReplace cls <;>
      by_cases h5 : isSubUpdate cls <;> by_cases h6 : isSubDelete cls <;>
      simp [addResource, addPath, h1, h2, h3, h4, h5, h6]

/-- C6: only implemented capabilities are bound and only those appear in the
specification: per-verb membership in the registered URL rules is equivalent
to the corresponding capability subclass check, every appended operation is
tagged with the resource name, and a resource deriving only CreateResource
and NonListableRetrieveResource binds exactly POST on the collection path and
GET on the item path, with exactly those two operations in the document. -/
theorem claim6_subset_binding (ds : Option String) (cls : ResourceClsDecl)
    (path name : String) :
    (("POST" ∈ (addResource ds cls path name).urlRules.map Prod.snd) ↔
      isSubCreate cls = true) ∧
    (("PUT" ∈ (addResource ds cls path name).urlRules.map Prod.snd) ↔
      isSubReplace cls = true) ∧
    (("PATCH" ∈ (addResource ds cls path name).urlRules.map Prod.snd) ↔
      isSubUpdate cls = true) ∧
    (("DELETE" ∈ (addResource ds cls path name).urlRules.map Prod.snd) ↔
      isSubDelete cls = true) ∧
    (("GET" ∈ (addResource ds cls path name).urlRules.map Prod.snd) ↔
      (isSubList cls || isSubNonListRetrieve cls) = true) ∧
    (∀ op ∈ (addResource ds cls path name).operations, op.tag = name) ∧
    (isSubCreate cls = true → isSubNonListRetrieve cls = true →
     isSubList cls = false → isSubReplace cls = false → isSubUpdate cls = false →
     isSubDelete cls = false →
      (addResource ds cls path name).urlRules =
        [(basePathOf path, "POST"), (path, "GET")] ∧
      (addResource ds cls path name).operations.map
          (fun op => (op.method, op.path, op.tag)) =
        [("POST", swaggerPathOf (basePathOf path), name),
         ("GET", swaggerPathOf path, name)]) := by
  by_cases h1 : isSubCreate cls <;> by_cases h2 : isSubList cls <;>
    by_cases h3 : isSubNonListRetrieve cls <;> by_cases h4 : isSubReplace cls <;>
    by_cases h5 : isSubUpdate cls <;> by_cases h6 : isSubDelete cls <;>
    simp [addResource, addPath, h1, h2, h3, h4, h5, h6]

/-- Witness for C6: the Create+Retrieve-only scenario at a concrete class. -/
theorem claim6_witness :
    (addResource none createRetrieveCls "/pets/<int:pet_id>" "Pet").urlRules =
      [(basePathOf "/pets/<int:pet_id>", "POST"), ("/pets/<int:pet_id>", "GET")] ∧
    (addResource none createRetrieveCls "/pets/<int:pet_id>" "Pet").operations.map
        (fun op => (op.method, op.path, op.tag)) =
      [("POST", swaggerPathOf (basePathOf "/pets/<int:pet_id>"), "Pet"),
       ("GET", swaggerPathOf "/pets/<int:pet_id>", "Pet")] :=
  (claim6_subset_binding none createRetrieveCls "/pets/<int:pet_id>"
    "Pet").2.2.2.2.2.2 (by decide) (by decide) (by decide) (by decide) (by decide)
    (by decide)

/-- C7: the security requirement of an appended operation is the method's
declared scheme when one is declared, else the configured default scheme,
else empty (publicly accessible). -/
theorem claim7_security_requirement (path method tag : String) (idp : List IdParam)
    (im : Option SchemaMode) (om : Option Bool) (xa : Option (List String))
    (st : Nat) (doc : Option String) :
    (∀ (ds : Option String) (s : String), s ≠ "" →
      (addPath ds path method tag idp im om xa (some s) st doc).2.security = [s]) ∧
    (∀ s : String, s ≠ "" →
      (addPath (some s) path method tag idp im om xa none st doc).2.security = [s]) ∧
    (addPath none path method tag idp im om xa none st doc).2.security = [] := by
  refine ⟨?_, ?_, rfl⟩
  · intro ds s hs
    simp [addPath, hs]
  · intro s hs
    simp [addPath, hs]

/-- Witness for C7 at the schemes the registry declares. -/
theorem claim7_witness :
    (addPath none "/cats" "POST" "Cat" [] none none none (some "basic_http")
        201 none).2.security = ["basic_http"] ∧
    (addPath (some "jwt_access_token") "/cats" "GET" "Cat" [] none none none
        none 200 none).2.security = ["jwt_access_token"] ∧
    (addPath none "/cats" "GET" "Cat" [] none none none none
        200 none).2.security = [] :=
  ⟨(claim7_security_requirement "/cats" "POST" "Cat" [] none none none 201 none).1
      none "basic_http" (by decide),
   (claim7_security_requirement "/cats" "GET" "Cat" [] none none none 200 none).2.1
      "jwt_access_token" (by decide),
   (claim7_security_requirement "/cats" "GET" "Cat" [] none none none 200 none).2.2⟩

/-- C10: implementing Update forces a PUT route (UpdateResource derives from
ReplaceResource, so PATCH without PUT is impossible); the PUT operation's
spec metadata is read from the update method; and the PUT handler parses the
body against the full schema and reaches update through the inherited replace
delegation. -/
theorem claim10_update_put_coupling (ds : Option String) (cls : ResourceClsDecl)
    (path name : String) :
    (isSubUpdate cls = true → isSubReplace cls = true) ∧
    ((path, "PATCH") ∈ (addResource ds cls path name).urlRules →
      (path, "PUT") ∈ (addResource ds cls path name).urlRules) ∧
    (isSubUpdate cls = true →
      (addResource ds cls path name).operations.filter
          (fun op => op.method = "PUT") =
        [(addPath ds path "PUT" name (idParamsOf path) (some .full) (some false)
            cls.updateMeta.extraArgs cls.updateMeta.authRequired 200
            cls.updateMeta.doc).2]) ∧
    (∀ (v : RestView) (urlFor : String → List (String × String) → String)
        (kwargs : List (String × String)) (req : HttpRequest),
      v.resource.replace = updateResourceReplace v.resource.update →
      RestView.put v urlFor kwargs req =
        ((asResponse (v.resource.update
            (dictMerge kwargs (req.parseBody .full)))).generate v.schemaCls false
            (some [("collection",
              urlFor v.resource.name (extractParentIds v.resource kwargs))]),
         (asResponse (v.resource.update
            (dictMerge kwargs (req.parseBody .full)))).getStatusCode 200)) := by
  have himp : isSubUpdate cls = true → isSubReplace cls = true := by
    intro h
    simp only [isSubUpdate, Bool.or_eq_true] at h
    simp only [isSubReplace, Bool.or_eq_true]
    tauto
  refine ⟨himp, ?_, ?_, ?_⟩
  · intro h
    by_cases h5 : isSubUpdate cls
    · have h4 := himp h5
      simp [addResource, h4]
    · exfalso
      by_cases h1 : isSubCreate cls <;> by_cases h2 : isSubList cls <;>
        by_cases h3 : isSubNonListRetrieve cls <;> by_cases h4 : isSubReplace cls <;>
        by_cases h6 : isSubDelete cls <;>
        simp [addResource, addPath, h1, h2, h3, h4, h5, h6] at h
  · intro h5
    have h4 := himp h5
    by_cases h1 : isSubCreate cls <;> by_cases h2 : isSubList cls <;>
      by_cases h3 : isSubNonListRetrieve cls <;> by_cases h6 : isSubDelete cls <;>
      simp [addResource, addPath, h1, h2, h3, h4, h5, h6]
  · intro v urlFor kwargs req hrepl
    unfold RestView.put
    rw [hrepl]
    rfl

/-- A schema collaborator used in concrete witnesses: dumps data unchanged,
wrapping it in a singleton array when `many` is set. -/
def demoSchema : SchemaCls :=
  ⟨fun d many => if many then .arr [d] else .obj [("one", d)]⟩

def demoUpdate : List (String × String) → RValue := fun _ => .raw (.str "updated")

/-- A concrete UpdateResource-style resource: `replace` is the inherited
delegation to `update`. -/
def demoResource : ResourceObj :=
  { name := "Cat"
    idParams := [⟨"integer", "cat_id"⟩]
    create := fun _ => .raw .null
    listM := fun _ => .raw .null
    retrieve := fun _ => .raw .null
    replace := updateResourceReplace demoUpdate
    update := demoUpdate
    deleteM := fun _ => .raw .null }

def demoUrlFor : String → List (String × String) → String := fun n _ => n

def demoReq : HttpRequest := ⟨fun _ => [("name", "Garfield")]⟩

/-- A class deriving CrudResource only. -/
def crudCls : ResourceClsDecl :=
  { subCreate := false, subList := false, subNonListRetrieve := false,
    subRetrieve := false, subReplace := false, subUpdate := false,
    subDelete := false, subCrud := true,
    createMeta := noMeta, listMeta := noMeta, retrieveMeta := noMeta,
    updateMeta := noMeta, deleteMeta := noMeta }

/-- Witness for C10 at a concrete CrudResource class and a concrete PUT
request. -/
theorem claim10_witness :
    isSubReplace crudCls = true ∧
    ("/cats/<int:cat_id>", "PUT") ∈
      (addResource none crudCls "/cats/<int:cat_id>" "Cat").urlRules ∧
    (addResource none crudCls "/cats/<int:cat_id>" "Cat").operations.filter
        (fun op => op.method = "PUT") =
      [(addPath none "/cats/<int:cat_id>" "PUT" "Cat"
          (idParamsOf "/cats/<int:cat_id>") (some .full) (some false)
          crudCls.updateMeta.extraArgs crudCls.updateMeta.authRequired 200
          crudCls.updateMeta.doc).2] ∧
    RestView.put ⟨demoSchema, demoResource, 1⟩ demoUrlFor [("cat_id", "1")] demoReq =
      ((asResponse (demoResource.update
          (dictMerge [("cat_id", "1")] (demoReq.parseBody .full)))).generate
          demoSchema false
          (some [("collection",
            demoUrlFor demoResource.name
              (extractParentIds demoResource [("cat_id", "1")]))]),
       (asResponse (demoResource.update
          (dictMerge [("cat_id", "1")] (demoReq.parseBody .full)))).getStatusCode
         200) := by
  have h := claim10_update_put_coupling none crudCls "/cats/<int:cat_id>" "Cat"
  refine ⟨h.1 (by decide), ?_, h.2.2.1 (by decide), ?_⟩
  · apply h.2.1
    simp [addResource, addPath, crudCls, isSubCreate, isSubList,
      isSubNonListRetrieve, isSubReplace, isSubUpdate, isSubDelete]
  · exact (claim10_update_put_coupling none crudCls "/cats/<int:cat_id>"
      "Cat").2.2.2 ⟨demoSchema, demoResource, 1⟩ demoUrlFor [("cat_id", "1")]
      demoReq rfl

/-! ### Claims C2 and C3: the GET dispatcher and the link merge law -/

def JVal.isArr : JVal → Bool
  | .arr _ => true
  | _ => false

def RBody.isArr : RBody → Bool
  | .json v => v.isArr
  | .empty => false

/-- C2: the single registered GET dispatcher branches solely on the count of
bound route identifiers versus the number of id params: strictly fewer bound
identifiers invoke `list` (serialized with many=true), all bound invoke
`retrieve` (serialized with many=false); and when the schema never emits an
array for a single dump, a retrieve response body is never an array. -/
theorem claim2_get_dispatcher (v : RestView)
    (urlFor : String → List (String × String) → String)
    (kwargs : List (String × String)) :
    (kwargs.length < v.numIds →
      RestView.get v urlFor kwargs =
        ((asResponse (v.resource.listM kwargs)).generate v.schemaCls true
            (some [("self",
              urlFor v.resource.name (extractParentIds v.resource kwargs))]),
         (asResponse (v.resource.listM kwargs)).getStatusCode 200)) ∧
    (v.numIds ≤ kwargs.length →
      RestView.get v urlFor kwargs =
        ((asResponse (v.resource.retrieve kwargs)).generate v.schemaCls false
            (some [("self", urlFor v.resource.name
                (dictMerge (extractParentIds v.resource kwargs) kwargs)),
              ("collection",
                urlFor v.resource.name (extractParentIds v.resource kwargs))]),
         (asResponse (v.resource.retrieve kwargs)).getStatusCode 200)) ∧
    ((∀ d : JVal, (v.schemaCls.dump d false).isArr = false) →
      v.numIds ≤ kwargs.length →
      (RestView.get v urlFor kwargs).1.body.isArr = false) := by
  refine ⟨?_, ?_, ?_⟩
  · intro h
    simp only [RestView.get]
    rw [if_pos h]
  · intro h
    simp only [RestView.get]
    rw [if_neg (Nat.not_lt.mpr h)]
  · intro hs h
    simp only [RestView.get]
    rw [if_neg (Nat.not_lt.mpr h)]
    cases hr : v.resource.retrieve kwargs with
    | raw d => simp [asResponse, REnvelope.generate, RBody.isArr, hs d]
    | env e =>
      cases e with
      | plain d st links =>
        simp [asResponse, REnvelope.generate, RBody.isArr, hs d]
      | headed d st links hh =>
        simp [asResponse, REnvelope.generate, RBody.isArr, hs d]
      | wrapped d st links dk extra =>
        simp [asResponse, REnvelope.generate, wrappedBody, RBody.isArr, JVal.isArr]

/-- A two-identifier resource (`/cats/<int:cat_id>/whiskers/<int:cat_whisker_id>`
style) used to witness the dispatcher. -/
def demoWhisker : ResourceObj :=
  { name := "CatWhisker"
    idParams := [⟨"integer", "cat_id"⟩, ⟨"integer", "cat_whisker_id"⟩]
    create := fun _ => .raw .null
    listM := fun _ => .raw (.arr [])
    retrieve := fun _ => .raw (.obj [("id", .num 2)])
    replace := fun _ => .raw .null
    update := fun _ => .raw .null
    deleteM := fun _ => .raw .null }

/-- Witness for C2: one bound identifier dispatches to list, two dispatch to
retrieve, and the retrieve body is not an array. -/
theorem claim2_witness :
    RestView.get ⟨demoSchema, demoWhisker, 2⟩ demoUrlFor [("cat_id", "1")] =
      ((asResponse (demoWhisker.listM [("cat_id", "1")])).generate demoSchema true
          (some [("self", demoUrlFor demoWhisker.name
              (extractParentIds demoWhisker [("cat_id", "1")]))]),
       (asResponse (demoWhisker.listM [("cat_id", "1")])).getStatusCode 200) ∧
    RestView.get ⟨demoSchema, demoWhisker, 2⟩ demoUrlFor
        [("cat_id", "1"), ("cat_whisker_id", "2")] =
      ((asResponse (demoWhisker.retrieve [("cat_id", "1"), ("cat_whisker_id", "2")])).generate
          demoSchema false
          (some [("self", demoUrlFor demoWhisker.name
              (dictMerge (extractParentIds demoWhisker
                  [("cat_id", "1"), ("cat_whisker_id", "2")])
                [("cat_id", "1"), ("cat_whisker_id", "2")])),
            ("collection", demoUrlFor demoWhisker.name
              (extractParentIds demoWhisker
                [("cat_id", "1"), ("cat_whisker_id", "2")]))]),
       (asResponse (demoWhisker.retrieve
          [("cat_id", "1"), ("cat_whisker_id", "2")])).getStatusCode 200) ∧
    (RestView.get ⟨demoSchema, demoWhisker, 2⟩ demoUrlFor
        [("cat_id", "1"), ("cat_whisker_id", "2")]).1.body.isArr = false :=
  ⟨(claim2_get_dispatcher ⟨demoSchema, demoWhisker, 2⟩ demoUrlFor
      [("cat_id", "1")]).1 (by decide),
   (claim2_get_dispatcher ⟨demoSchema, demoWhisker, 2⟩ demoUrlFor
      [("cat_id", "1"), ("cat_whisker_id", "2")]).2.1 (by decide),
   (claim2_get_dispatcher ⟨demoSchema, demoWhisker, 2⟩ demoUrlFor
      [("cat_id", "1"), ("cat_whisker_id", "2")]).2.2 (fun d => rfl) (by decide)⟩

/-- C3: the rendered link set is the derived base links overridden key-wise
by the resource-supplied links (the Python merge of R over B), with the base
links being a collection link for POST/PUT/PATCH, self plus collection for
item GET, and a self link pointing at the collection URL for list GET;
observed through the Wrapped envelope, whose body renders the resolved
links. -/
theorem claim3_link_merge_law (rv : RestView)
    (urlFor : String → List (String × String) → String)
    (kwargs : List (String × String)) (req : HttpRequest)
    (d : JVal) (st : Option Nat) (R : List (String × String)) (dk : String)
    (extra : List (String × JVal)) :
    (∀ (b r : List (String × String)) (k : String), (r.map Prod.fst).Nodup →
      dictGet (dictMerge b r) k =
        (dictGet r k).orElse (fun _ => dictGet b k)) ∧
    (rv.resource.create (dictMerge kwargs (req.parseBody .full)) =
        .env (.wrapped d st R dk extra) →
      (RestView.post rv urlFor kwargs req).1.body =
        .json (wrappedBody
          (dictMerge [("collection",
            urlFor rv.resource.name (extractParentIds rv.resource kwargs))] R)
          dk (rv.schemaCls.dump d false) extra)) ∧
    (rv.resource.replace (dictMerge kwargs (req.parseBody .full)) =
        .env (.wrapped d st R dk extra) →
      (RestView.put rv urlFor kwargs req).1.body =
        .json (wrappedBody
          (dictMerge [("collection",
            urlFor rv.resource.name (extractParentIds rv.resource kwargs))] R)
          dk (rv.schemaCls.dump d false) extra)) ∧
    (rv.resource.update (dictMerge kwargs (req.parseBody .allOptional)) =
        .env (.wrapped d st R dk extra) →
      (RestView.patch rv urlFor kwargs req).1.body =
        .json (wrappedBody
          (dictMerge [("collection",
            urlFor rv.resource.name (extractParentIds rv.resource kwargs))] R)
          dk (rv.schemaCls.dump d false) extra)) ∧
    (kwargs.length < rv.numIds → rv.resource.listM kwargs =
        .env (.wrapped d st R dk extra) →
      (RestView.get rv urlFor kwargs).1.body =
        .json (wrappedBody
          (dictMerge [("self",
            urlFor rv.resource.name (extractParentIds rv.resource kwargs))] R)
          dk (rv.schemaCls.dump d true) extra)) ∧
    (rv.numIds ≤ kwargs.length → rv.resource.retrieve kwargs =
        .env (.wrapped d st R dk extra) →
      (RestView.get rv urlFor kwargs).1.body =
        .json (wrappedBody
          (dictMerge [("self", urlFor rv.resource.name
              (dictMerge (extractParentIds rv.resource kwargs) kwargs)),
            ("collection",
              urlFor rv.resource.name (extractParentIds rv.resource kwargs))] R)
          dk (rv.schemaCls.dump d false) extra)) := by
  refine ⟨fun b r k h => dictGet_dictMerge b r k h, ?_, ?_, ?_, ?_, ?_⟩
  · intro h
    simp only [RestView.post]
    rw [h]
    rfl
  · intro h
    simp only [RestView.put]
    rw [h]
    rfl
  · intro h
    simp only [RestView.patch]
    rw [h]
    rfl
  · intro hlt h
    simp only [RestView.get]
    rw [if_pos hlt, h]
    rfl
  · intro hge h
    simp only [RestView.get]
    rw [if_neg (Nat.not_lt.mpr hge), h]
    rfl

/-- A list capability answering a Wrapped envelope with an explicit `next`
link, as the whiskers listing of the test API does. -/
def wrapListResource : ResourceObj :=
  { demoWhisker with
    listM := fun _ =>
      .env (.wrapped (.arr []) none [("next", "http://x/whiskers?page=2")] "data" []) }

/-- Witness for C3: the merge law at overlapping keys, and the list GET body
rendering the self base link merged with the explicit next link. -/
theorem claim3_witness :
    dictGet (dictMerge [("self", "a"), ("collection", "b")]
        [("self", "c"), ("next", "d")]) "self" =
      (dictGet [("self", "c"), ("next", "d")] "self").orElse
        (fun _ => dictGet [("self", "a"), ("collection", "b")] "self") ∧
    (RestView.get ⟨demoSchema, wrapListResource, 2⟩ demoUrlFor
        [("cat_id", "1")]).1.body =
      .json (wrappedBody
        (dictMerge [("self", demoUrlFor wrapListResource.name
            (extractParentIds wrapListResource [("cat_id", "1")]))]
          [("next", "http://x/whiskers?page=2")])
        "data" (demoSchema.dump (.arr []) true) []) :=
  ⟨(claim3_link_merge_law ⟨demoSchema, wrapListResource, 2⟩ demoUrlFor
      [("cat_id", "1")] demoReq .null none [] "data" []).1
      [("self", "a"), ("collection", "b")] [("self", "c"), ("next", "d")]
      "self" (by decide),
   (claim3_link_merge_law ⟨demoSchema, wrapListResource, 2⟩ demoUrlFor
      [("cat_id", "1")] demoReq (.arr []) none
      [("next", "http://x/whiskers?page=2")] "data" []).2.2.2.2.1
      (by decide) rfl⟩

/-! ### Claim C8: the Headed response headers -/

theorem formatLinkHeader_ne_empty (p : String × String) (ls : List (String × String)) :
    formatLinkHeader (p :: ls) ≠ "" := by
  cases ls with
  | nil =>
    intro h
    exact List.noConfusion (congrArg String.data h)
  | cons q ls =>
    intro h
    exact List.noConfusion (congrArg String.data h)

theorem dictGet_foldSet_ne {V : Type} (hs : List (String × V))
    (h0 : List (String × V)) (k : String) (h : ∀ p ∈ hs, p.1 ≠ k) :
    dictGet (hs.foldl (fun acc p => dictSet acc p.1 p.2) h0) k = dictGet h0 k := by
  induction hs generalizing h0 with
  | nil => rfl
  | cons q hs ih =>
    simp only [List.foldl_cons]
    rw [ih _ (fun p hp => h p (by simp [hp]))]
    exact dictGet_dictSet_ne h0 q.1 k q.2 (fun hc => h q (by simp) hc.symm)

theorem dictGet_foldSet_mem {V : Type} (hs : List (String × V))
    (h0 : List (String × V)) (k : String) (val : V)
    (hnd : (hs.map Prod.fst).Nodup) (hmem : (k, val) ∈ hs) :
    dictGet (hs.foldl (fun acc p => dictSet acc p.1 p.2) h0) k = some val := by
  induction hs generalizing h0 with
  | nil => simp at hmem
  | cons q hs ih =>
    simp only [List.map_cons, List.nodup_cons] at hnd
    simp only [List.mem_cons] at hmem
    simp only [List.foldl_cons]
    rcases hmem with rfl | hmem
    · rw [dictGet_foldSet_ne hs _ k
        (fun p hp hc => hnd.1 (hc ▸ (List.mem_map.mpr ⟨p, hp, rfl⟩)))]
      exact dictGet_dictSet_self h0 k val
    · exact ih _ hnd.2 hmem

/-- C8: a Headed envelope renders one `Link` header joining every resolved
link as an url-in-angle-brackets/rel pair, applies the explicitly supplied
extra headers, and advertises via `Access-Control-Expose-Headers` exactly the
added header names outside the CORS safelisted set — never a safelisted
name. -/
theorem claim8_headed_response (d : JVal) (st : Option Nat)
    (links : List (String × String)) (uh : Option (List (String × String)))
    (schema : SchemaCls) (many : Bool) (base : Option (List (String × String))) :
    (REnvelope.generate (.headed d st links uh) schema many base =
      ⟨.json (schema.dump d many), headedHeaders (resolveLinks links base) uh⟩) ∧
    (∀ (resolved : List (String × String)), resolved ≠ [] →
      (∀ hs, uh = some hs → ∀ p ∈ hs, p.1 ≠ "Link") →
      dictGet (headedHeaders resolved uh) "Link" = some (formatLinkHeader resolved)) ∧
    (∀ (lh k : String), k ∈ headedExpose lh uh ↔
      (k ∈ headedAdded lh uh ∧ k ∉ corsSafelist)) ∧
    (∀ (lh k : String), k ∈ corsSafelist → k ∉ headedExpose lh uh) ∧
    (∀ (resolved : List (String × String)) (hs : List (String × String))
        (k val : String),
      uh = some hs → (hs.map Prod.fst).Nodup → (k, val) ∈ hs →
      k ≠ "Access-Control-Expose-Headers" →
      dictGet (headedHeaders resolved (some hs)) k = some val) ∧
    (∀ (resolved : List (String × String)),
      headedExpose (formatLinkHeader resolved) uh ≠ [] →
      dictGet (headedHeaders resolved uh) "Access-Control-Expose-Headers" =
        some (joinCommaSpace (headedExpose (formatLinkHeader resolved) uh))) := by
  refine ⟨rfl, ?_, ?_, ?_, ?_, ?_⟩
  · intro resolved hres huser
    obtain ⟨p, ls, rfl⟩ : ∃ p ls, resolved = p :: ls := by
      cases resolved with
      | nil => exact absurd rfl hres
      | cons p ls => exact ⟨p, ls, rfl⟩
    have hlh : formatLinkHeader (p :: ls) ≠ "" := formatLinkHeader_ne_empty p ls
    simp only [headedHeaders]
    rw [if_pos hlh]
    cases uh with
    | none =>
      by_cases hexp : headedExpose (formatLinkHeader (p :: ls)) none = []
      · rw [if_neg (fun hc => hc hexp)]
        simp [dictGet]
      · rw [if_pos hexp]
        rw [dictGet_dictSet_ne _ _ _ _ (by decide)]
        simp [dictGet]
    | some hs =>
      have hfold := dictGet_foldSet_ne hs [("Link", formatLinkHeader (p :: ls))]
        "Link" (huser hs rfl)
      by_cases hexp : headedExpose (formatLinkHeader (p :: ls)) (some hs) = []
      · rw [if_neg (fun hc => hc hexp)]
        rw [hfold]
        simp [dictGet]
      · rw [if_pos hexp]
        rw [dictGet_dictSet_ne _ _ _ _ (by decide)]
        rw [hfold]
        simp [dictGet]
  · intro lh k
    simp only [headedExpose, List.mem_filter, decide_eq_true_eq]
    constructor
    · rintro ⟨h1, h2⟩
      refine ⟨h1, fun hc => h2 ?_⟩
      exact List.elem_iff.mpr hc
    · rintro ⟨h1, h2⟩
      refine ⟨h1, fun hc => h2 ?_⟩
      exact List.elem_iff.mp hc
  · intro lh k hsafe hc
    simp only [headedExpose, List.mem_filter, decide_eq_true_eq] at hc
    exact hc.2 (List.elem_iff.mpr hsafe)
  · intro resolved hs k val huh hnd hmem hk
    simp only [headedHeaders]
    by_cases hlh : formatLinkHeader resolved ≠ ""
    · rw [if_pos hlh]
      by_cases hexp : headedExpose (formatLinkHeader resolved) (some hs) = []
      · rw [if_neg (fun hc => hc hexp)]
        exact dictGet_foldSet_mem hs _ k val hnd hmem
      · rw [if_pos hexp]
        rw [dictGet_dictSet_ne _ _ _ _ hk]
        exact dictGet_foldSet_mem hs _ k val hnd hmem
    · rw [if_neg hlh]
      by_cases hexp : headedExpose (formatLinkHeader resolved) (some hs) = []
      · rw [if_neg (fun hc => hc hexp)]
        exact dictGet_foldSet_mem hs _ k val hnd hmem
      · rw [if_pos hexp]
        rw [dictGet_dictSet_ne _ _ _ _ hk]
        exact dictGet_foldSet_mem hs _ k val hnd hmem
  · intro resolved hexp
    simp only [headedHeaders]
    by_cases hlh : formatLinkHeader resolved ≠ "" <;>
      [rw [if_pos hlh]; rw [if_neg hlh]] <;>
      rw [if_pos hexp] <;>
      exact dictGet_dictSet_self _ _ _

/-- Witness for C8: a list GET answering a Headed envelope with an explicit
`next` link: the `Link` header joins the derived `self` and the explicit
`next` relation, and a safelisted name such as `Content-Type` is never
advertised in `Access-Control-Expose-Headers`. -/
theorem claim8_witness :
    (REnvelope.generate (.headed (.arr []) none [("next", "u2")] none) demoSchema
        true (some [("self", "u1")]) =
      ⟨.json (demoSchema.dump (.arr []) true),
       headedHeaders (resolveLinks [("next", "u2")] (some [("self", "u1")])) none⟩) ∧
    dictGet (headedHeaders (dictMerge [("self", "u1")] [("next", "u2")]) none)
        "Link" =
      some (formatLinkHeader (dictMerge [("self", "u1")] [("next", "u2")])) ∧
    formatLinkHeader (dictMerge [("self", "u1")] [("next", "u2")]) =
      "<u1>; rel=\"self\", <u2>; rel=\"next\"" ∧
    "Content-Type" ∉
      headedExpose (formatLinkHeader (dictMerge [("self", "u1")] [("next", "u2")]))
        none := by
  have h := claim8_headed_response (.arr []) none [("next", "u2")] none demoSchema
    true (some [("self", "u1")])
  refine ⟨h.1, ?_, by decide, ?_⟩
  · exact h.2.1 (dictMerge [("self", "u1")] [("next", "u2")]) (by decide)
      (fun hs hc => by cases hc)
  · exact h.2.2.2.1
      (formatLinkHeader (dictMerge [("self", "u1")] [("next", "u2")]))
      "Content-Type" (by decide)

/-! ### Claim C9: resource groups bind exactly once -/

/-- The root registry a chain of group bindings eventually reaches. -/
def BlueprintObj.rootApi : BlueprintObj → Option ApiState
  | .mk _ none => none
  | .mk _ (some (.api a)) => some a
  | .mk _ (some (.group p)) => p.rootApi

/-- A bound group's `url_for` is the bound root registry's `url_for`:
the delegation chain collapses. -/
theorem urlFor_eq_rootApi : ∀ (b : BlueprintObj) (n : String) (m : Option String)
    (args : List (String × String)),
    b.urlFor n m args = (b.rootApi).map (fun a => a.urlFor n m args)
  | .mk _ none, _, _, _ => rfl
  | .mk _ (some (.api _)), _, _, _ => rfl
  | .mk rs (some (.group p)), n, m, args => by
    show p.urlFor n m args = _
    rw [urlFor_eq_rootApi p n m args]
    rfl

theorem foldl_addResource_registered
    (rs : List (ResourceClsDecl × String × String)) (a : ApiState) :
    (rs.foldl (fun s r => s.addResource r.1 r.2.1 r.2.2) a).registered =
      a.registered ++ rs := by
  induction rs generalizing a with
  | nil => simp
  | cons r rs ih =>
    simp only [List.foldl_cons]
    rw [ih]
    simp [ApiState.addResource]

/-- C9: a group can be bound exactly once (a second bind raises the fatal
configuration error), a successful `add_blueprint` merges the group's
resources into the registry in declaration order, group-into-group merging
also binds the child and concatenates in order, and after binding, URL
generation from within the group delegates to the bound root registry. -/
theorem claim9_group_bind_once :
    (∀ (b b2 : BlueprintObj) (t t2 : BindTarget),
      b.bind t = .ok b2 →
      b2.bind t2 = .error "blueprints can be bound to one rest api only") ∧
    (∀ (a : ApiState) (b : BlueprintObj), b.boundTo = none →
      ApiState.addBlueprint a b =
        .ok (b.resources.foldl (fun s r => s.addResource r.1 r.2.1 r.2.2) a,
          .mk b.resources (some (.api a))) ∧
      (b.resources.foldl (fun s r => s.addResource r.1 r.2.1 r.2.2) a).registered =
        a.registered ++ b.resources) ∧
    (∀ (a : ApiState) (b : BlueprintObj) (t : BindTarget), b.boundTo = some t →
      ApiState.addBlueprint a b =
        .error "blueprints can be bound to one rest api only") ∧
    (∀ (parent child : BlueprintObj) (t : BindTarget), child.boundTo = some t →
      BlueprintObj.addBlueprint parent child =
        .error "blueprints can be bound to one rest api only") ∧
    (∀ (parent child : BlueprintObj), child.boundTo = none →
      BlueprintObj.addBlueprint parent child =
        .ok (.mk (parent.resources ++ child.resources) parent.boundTo,
          .mk child.resources (some (.group parent)))) ∧
    (∀ (b : BlueprintObj) (a : ApiState) (n : String) (m : Option String)
        (args : List (String × String)),
      b.rootApi = some a → b.urlFor n m args = some (a.urlFor n m args)) := by
  refine ⟨?_, ?_, ?_, ?_, ?_, ?_⟩
  · intro b b2 t t2 hok
    obtain ⟨rs, tgt⟩ := b
    cases tgt with
    | some t0 => simp [BlueprintObj.bind, BlueprintObj.boundTo] at hok
    | none =>
      simp only [BlueprintObj.bind, BlueprintObj.boundTo, Except.ok.injEq] at hok
      subst hok
      rfl
  · intro a b hb
    obtain ⟨rs, tgt⟩ := b
    simp only [BlueprintObj.boundTo] at hb
    subst hb
    exact ⟨rfl, foldl_addResource_registered rs a⟩
  · intro a b t hb
    obtain ⟨rs, tgt⟩ := b
    simp only [BlueprintObj.boundTo] at hb
    subst hb
    rfl
  · intro parent child t hb
    obtain ⟨rs, tgt⟩ := child
    simp only [BlueprintObj.boundTo] at hb
    subst hb
    rfl
  · intro parent child hb
    obtain ⟨rs, tgt⟩ := child
    simp only [BlueprintObj.boundTo] at hb
    subst hb
    rfl
  · intro b a n m args hroot
    rw [urlFor_eq_rootApi b n m args, hroot]
    rfl

/-- A registry with no registrations, for the C9 witness. -/
def demoApi : ApiState :=
  { defaultScheme := none, registered := [], resourceMethods := [],
    flaskUrlFor := fun n _ _ => n }

/-- An unbound group declaring one resource, for the C9 witness. -/
def demoBp : BlueprintObj := .mk [(crudCls, "/cats/<int:cat_id>", "Cat")] none

/-- Witness for C9: the first bind succeeds, the second raises, the merge
preserves declaration order, and the bound group's URL generation delegates
to the root registry. -/
theorem claim9_witness :
    (BlueprintObj.mk demoBp.resources (some (.api demoApi))).bind (.api demoApi) =
      .error "blueprints can be bound to one rest api only" ∧
    ApiState.addBlueprint demoApi demoBp =
      .ok (demoBp.resources.foldl (fun s r => s.addResource r.1 r.2.1 r.2.2) demoApi,
        .mk demoBp.resources (some (.api demoApi))) ∧
    (demoBp.resources.foldl (fun s r => s.addResource r.1 r.2.1 r.2.2)
        demoApi).registered = demoApi.registered ++ demoBp.resources ∧
    (BlueprintObj.mk demoBp.resources (some (.api demoApi))).urlFor "Cat" none [] =
      some (demoApi.urlFor "Cat" none []) := by
  have h := claim9_group_bind_once
  refine ⟨h.1 demoBp _ (.api demoApi) (.api demoApi) rfl, (h.2.1 demoApi demoBp rfl).1,
    (h.2.1 demoApi demoBp rfl).2, h.2.2.2.2.2 _ demoApi "Cat" none [] rfl⟩

end Crudest
